import Mathlib

set_option linter.unusedVariables false

/-!
Shallow embedding of the ESLint rule `require-call-in-context`
(src/lib/rules/require-call-in-context.js) of the plugin
`eslint-plugin-enforce-call`.

The rule walks an ESTree-shaped syntax tree.  We embed the relevant
fragment of ESTree as the inductive type `Node`: each constructor is one
`node.type` tag the rule inspects, with the child fields the rule reads.
Pure JS helper functions become Lean functions of the same name.
-/

namespace EnforceCall

/-- ESTree node fragment used by the rule.  `otherNode` stands for any
node kind the rule never branches on (e.g. `ThrowStatement`); the JS code
falls through all its `if` chains on such nodes, which the Lean match
catch-alls mirror. -/
inductive Node where
  | identifier (name : String)
  | literal
  | thisExpr
  | member (object : Node) (prop : Node) (computed : Bool)
  | callExpr (callee : Node) (arguments : List Node)
  | awaitExpr (argument : Node)
  | arrowFn (expression : Bool) (body : Node)
  | functionExpr (body : Node)
  | functionDecl (id : Option String) (body : Node)
  | objectExpr (properties : List Node)
  | propertyNode (key : Node) (value : Node)
  | spreadElement (argument : Node)
  | tsSatisfies (expression : Node)
  | tsAs (expression : Node)
  | tsTypeAssertion (expression : Node)
  | exprStmt (expression : Node)
  | varDecl (declarations : List Node)
  | varDeclarator (id : Node) (init : Option Node)
  | returnStmt (argument : Option Node)
  | blockStmt (body : List Node)
  | ifStmt (test : Node) (consequent : Node) (alternate : Option Node)
  | tryStmt (block : Node) (handler : Option Node) (finalizer : Option Node)
  | catchClause (body : Node)
  | forStmt (body : Node)
  | forInStmt (body : Node)
  | forOfStmt (body : Node)
  | whileStmt (body : Node)
  | doWhileStmt (body : Node)
  | switchStmt (cases : List Node)
  | switchCase (consequent : List Node)
  | withStmt (body : Node)
  | labeledStmt (body : Node)
  | exportNamed (declaration : Option Node)
  | exportDefault (declaration : Node)
  | program (body : List Node)
  | otherNode
deriving Repr

/-- The `while` loop of `getCallExpressionName`: walk a member chain from
the outermost access toward the base, `unshift`-ing each `Identifier`
property (non-identifier properties are skipped), and prepending the base
identifier on `break`; any other base returns `null`. -/
def collectMemberParts : Node → List String → Option (List String)
  | .member object prop _, parts =>
      collectMemberParts object
        (match prop with
         | .identifier n => n :: parts
         | _ => parts)
  | .identifier n, parts => some (n :: parts)
  | _, _ => none

/-- `getCallExpressionName(node)`: full dotted name of a call, or null. -/
def getCallExpressionName : Node → Option String
  | .callExpr callee _ =>
      match callee with
      | .identifier name => some name
      | .member o p c => (collectMemberParts (.member o p c) []).map (String.intercalate ".")
      | _ => none
  | _ => none

/-- `isEmptyCallback(node)`: arrow with expression body is never empty;
a block body is empty iff it has zero statements; anything else is not
empty.  (Per its doc comment the JS function is applied only to
`ArrowFunctionExpression`, `FunctionExpression`, `FunctionDeclaration`.) -/
def isEmptyCallback : Node → Bool
  | .arrowFn true _ => false
  | .arrowFn false (.blockStmt body) => body.isEmpty
  | .functionExpr (.blockStmt body) => body.isEmpty
  | .functionDecl _ (.blockStmt body) => body.isEmpty
  | _ => false

/-- The two-line `await` unwrap pattern repeated at each collection site:
`if (expr.type === "AwaitExpression") expr = expr.argument`. -/
def unwrapOneAwait : Node → Node
  | .awaitExpr argument => argument
  | e => e

/-- JS `s.includes(".")`, modelled over the character list. -/
def containsDot (s : String) : Bool := s.toList.contains '.'

/-- JS `s.split(".")`, modelled over the character list. -/
def splitOnDot (s : String) : List String :=
  (s.toList.splitOn '.').map String.mk

/-- `callMatchesEnforced(call, enforce)`. -/
def callMatchesEnforced (call enforce : String) : Bool :=
  if call = enforce then true
  else if containsDot call && !(containsDot enforce) then
    (splitOnDot call).getLastD "" = enforce
  else false

/-- The pattern repeated at each statement-level collection site of
`collectCallsFromStatement`: unwrap one optional `await`, and if the result
is a `CallExpression`, emit its resolved name (dropping `null`). -/
def emitCallName (e : Node) : List String :=
  match unwrapOneAwait e with
  | .callExpr callee args => (getCallExpressionName (.callExpr callee args)).toList
  | _ => []

/-- The `for (const declarator of statement.declarations)` loop of the
`VariableDeclaration` branch: each declarator with an initializer gets the
unwrap-await-and-emit treatment. -/
def collectFromDeclarators : List Node → List String
  | [] => []
  | (.varDeclarator _ (some init)) :: rest => emitCallName init ++ collectFromDeclarators rest
  | _ :: rest => collectFromDeclarators rest

mutual

/-- `collectCallsFromStatement(statement)`, the recursive collector inside
`getDirectCalls`.  Each arm is one `if (statement.type === ...)` branch of
the JS function; node kinds matching none of the branches contribute
nothing.  Recursion never enters a function node: `FunctionDeclaration`,
`ArrowFunctionExpression` and `FunctionExpression` fall through to `[]`. -/
def collectCallsFromStatement : Node → List String
  | .exprStmt expression => emitCallName expression
  | .varDecl declarations => collectFromDeclarators declarations
  | .returnStmt (some argument) => emitCallName argument
  | .blockStmt body => collectFromStatements body
  | .ifStmt _ consequent alternate =>
      collectCallsFromStatement consequent ++ collectFromOptStatement alternate
  | .tryStmt block handler finalizer =>
      collectCallsFromStatement block ++ collectFromHandler handler ++
        collectFromOptStatement finalizer
  | .forStmt body => collectCallsFromStatement body
  | .forInStmt body => collectCallsFromStatement body
  | .forOfStmt body => collectCallsFromStatement body
  | .whileStmt body => collectCallsFromStatement body
  | .doWhileStmt body => collectCallsFromStatement body
  | .switchStmt cases => collectFromCases cases
  | .withStmt body => collectCallsFromStatement body
  | .labeledStmt body => collectCallsFromStatement body
  | _ => []

/-- Statement-list traversal (`for (const stmt of ...) collect(stmt)`). -/
def collectFromStatements : List Node → List String
  | [] => []
  | s :: rest => collectCallsFromStatement s ++ collectFromStatements rest

/-- `collectCallsFromStatement(x)` where `x` may be absent (`else`
branch, `finally` block): JS returns early on a missing statement. -/
def collectFromOptStatement : Option Node → List String
  | none => []
  | some s => collectCallsFromStatement s

/-- `if (statement.handler) collect(statement.handler.body)`. -/
def collectFromHandler : Option Node → List String
  | some (.catchClause body) => collectCallsFromStatement body
  | _ => []

/-- The `SwitchStatement` branch: `for` each case, collect from each
statement of its `consequent` list. -/
def collectFromCases : List Node → List String
  | [] => []
  | (.switchCase consequent) :: rest =>
      collectFromStatements consequent ++ collectFromCases rest
  | _ :: rest => collectFromCases rest

end

/-- `getDirectCalls(node)`: names of all directly-performed calls of a
function body.  An expression-bodied arrow unwraps one `await` and resolves
the body itself; a block body runs the statement collector over its
statements; any other shape yields the empty list. -/
def getDirectCalls (node : Node) : List String :=
  match node with
  | .arrowFn true body => (getCallExpressionName (unwrapOneAwait body)).toList
  | .arrowFn false (.blockStmt body) => collectFromStatements body
  | .functionExpr (.blockStmt body) => collectFromStatements body
  | .functionDecl _ (.blockStmt body) => collectFromStatements body
  | _ => []

/-- `checkEnforcedCalls(calls, enforce, requireAll)`. -/
def checkEnforcedCalls (calls enforce : List String) (requireAll : Bool) : Bool :=
  if requireAll then
    enforce.all fun fn => calls.any fun call => callMatchesEnforced call fn
  else
    enforce.any fun fn => calls.any fun call => callMatchesEnforced call fn

/-- The rule's options object: `check`, `checkFunctions`, `enforce`,
`requireAll`, with the defaults of the destructuring in `create`. -/
structure Options where
  check : List String := []
  checkFunctions : List String := []
  enforce : List String := []
  requireAll : Bool := false

/-- One `context.report({...})` invocation: the anchored node, the
selected `messageId`, and the interpolated `functions` data
(`enforce.join(", ")`). -/
structure Report where
  node : Node
  messageId : String
  functions : String
deriving Repr

/-- `unwrapTypeExpression(node)`: strip `TSSatisfiesExpression`,
`TSAsExpression` and `TSTypeAssertion` wrappers. -/
def unwrapTypeExpression : Node → Node
  | .tsSatisfies expression => unwrapTypeExpression expression
  | .tsAs expression => unwrapTypeExpression expression
  | .tsTypeAssertion expression => unwrapTypeExpression expression
  | n => n

/-- `checkFunctionForEnforcedCalls(funcNode)`: skip empty callbacks, else
report when the direct calls do not satisfy the policy. -/
def checkFunctionForEnforcedCalls (opts : Options) (funcNode : Node) : List Report :=
  if isEmptyCallback funcNode then []
  else
    let calls := getDirectCalls funcNode
    if !(checkEnforcedCalls calls opts.enforce opts.requireAll) then
      [{ node := funcNode
         messageId := if opts.requireAll then "missingAll" else "missingAtLeastOne"
         functions := String.intercalate ", " opts.enforce }]
    else []

/-- `getExportedFunctionName(node)`: the name of a declarator whose `id`
is a plain identifier. -/
def getExportedFunctionName : Node → Option String
  | .varDeclarator (.identifier name) _ => some name
  | _ => none

/-- The `CallExpression` visitor of `create`: resolve the callee name,
and when it is monitored, check every function-valued argument.  On any
node that is not a `CallExpression`, `getCallExpressionName` is `null`
and nothing happens, matching the host dispatching this handler only to
`CallExpression` nodes. -/
def visitCallExpression (opts : Options) (node : Node) : List Report :=
  match getCallExpressionName node with
  | none => []
  | some functionName =>
    if opts.check.contains functionName then
      match node with
      | .callExpr _ args =>
          args.flatMap fun arg =>
            match arg with
            | .arrowFn e b => checkFunctionForEnforcedCalls opts (.arrowFn e b)
            | .functionExpr b => checkFunctionForEnforcedCalls opts (.functionExpr b)
            | _ => []
      | _ => []
    else []

/-- The per-declarator body of the `ExportNamedDeclaration` visitor's
`VariableDeclaration` loop: a named declarator in `checkFunctionsSet` has
its initializer unwrapped; a function initializer is checked directly, and
an object-literal initializer has each function-valued `Property` value
checked independently. -/
def checkExportedDeclarator (opts : Options) (declarator : Node) : List Report :=
  match getExportedFunctionName declarator with
  | none => []
  | some name =>
    if opts.checkFunctions.contains name then
      match declarator with
      | .varDeclarator _ init =>
        let unwrappedInit := init.map unwrapTypeExpression
        (match unwrappedInit with
         | some (.arrowFn e b) => checkFunctionForEnforcedCalls opts (.arrowFn e b)
         | some (.functionExpr b) => checkFunctionForEnforcedCalls opts (.functionExpr b)
         | _ => []) ++
        (match unwrappedInit with
         | some (.objectExpr properties) =>
             properties.flatMap fun p =>
               match p with
               | .propertyNode _ value =>
                 match unwrapTypeExpression value with
                 | .arrowFn e b => checkFunctionForEnforcedCalls opts (.arrowFn e b)
                 | .functionExpr b => checkFunctionForEnforcedCalls opts (.functionExpr b)
                 | _ => []
               | _ => []
         | _ => [])
      | _ => []
    else []

/-- The `ExportNamedDeclaration` visitor of `create`. -/
def visitExportNamed (opts : Options) (node : Node) : List Report :=
  match node with
  | .exportNamed decl =>
    if opts.checkFunctions.isEmpty then []
    else
      (match decl with
       | some (.varDecl declarations) =>
           declarations.flatMap (checkExportedDeclarator opts)
       | _ => []) ++
      (match decl with
       | some (.functionDecl (some name) b) =>
           if opts.checkFunctions.contains name then
             checkFunctionForEnforcedCalls opts (.functionDecl (some name) b)
           else []
       | _ => [])
  | _ => []

/-- The `ExportDefaultDeclaration` visitor of `create`. -/
def visitExportDefault (opts : Options) (node : Node) : List Report :=
  match node with
  | .exportDefault decl =>
    if opts.checkFunctions.isEmpty then []
    else
      match decl with
      | .functionDecl (some name) b =>
          if opts.checkFunctions.contains name then
            checkFunctionForEnforcedCalls opts (.functionDecl (some name) b)
          else []
      | _ => []
  | _ => []

mutual

/-- Pre-order enumeration of a tree's nodes, modelling the host (ESLint)
traversal that dispatches the registered visitors to every node. -/
def allNodes : Node → List Node
  | .identifier name => [.identifier name]
  | .literal => [.literal]
  | .thisExpr => [.thisExpr]
  | .member o p c => .member o p c :: (allNodes o ++ allNodes p)
  | .callExpr callee args => .callExpr callee args :: (allNodes callee ++ allNodesList args)
  | .awaitExpr a => .awaitExpr a :: allNodes a
  | .arrowFn e b => .arrowFn e b :: allNodes b
  | .functionExpr b => .functionExpr b :: allNodes b
  | .functionDecl id b => .functionDecl id b :: allNodes b
  | .objectExpr props => .objectExpr props :: allNodesList props
  | .propertyNode k v => .propertyNode k v :: (allNodes k ++ allNodes v)
  | .spreadElement a => .spreadElement a :: allNodes a
  | .tsSatisfies e => .tsSatisfies e :: allNodes e
  | .tsAs e => .tsAs e :: allNodes e
  | .tsTypeAssertion e => .tsTypeAssertion e :: allNodes e
  | .exprStmt e => .exprStmt e :: allNodes e
  | .varDecl ds => .varDecl ds :: allNodesList ds
  | .varDeclarator id init => .varDeclarator id init :: (allNodes id ++ allNodesOpt init)
  | .returnStmt a => .returnStmt a :: allNodesOpt a
  | .blockStmt b => .blockStmt b :: allNodesList b
  | .ifStmt t c a => .ifStmt t c a :: (allNodes t ++ allNodes c ++ allNodesOpt a)
  | .tryStmt b h f => .tryStmt b h f :: (allNodes b ++ allNodesOpt h ++ allNodesOpt f)
  | .catchClause b => .catchClause b :: allNodes b
  | .forStmt b => .forStmt b :: allNodes b
  | .forInStmt b => .forInStmt b :: allNodes b
  | .forOfStmt b => .forOfStmt b :: allNodes b
  | .whileStmt b => .whileStmt b :: allNodes b
  | .doWhileStmt b => .doWhileStmt b :: allNodes b
  | .switchStmt cs => .switchStmt cs :: allNodesList cs
  | .switchCase cs => .switchCase cs :: allNodesList cs
  | .withStmt b => .withStmt b :: allNodes b
  | .labeledStmt b => .labeledStmt b :: allNodes b
  | .exportNamed d => .exportNamed d :: allNodesOpt d
  | .exportDefault d => .exportDefault d :: allNodes d
  | .program b => .program b :: allNodesList b
  | .otherNode => [.otherNode]

def allNodesList : List Node → List Node
  | [] => []
  | n :: rest => allNodes n ++ allNodesList rest

def allNodesOpt : Option Node → List Node
  | none => []
  | some n => allNodes n

end

/-- One full analysis pass: the host walks every node of the tree and
fires the three registered visitors; the reports are emitted in
traversal order. -/
def runRule (opts : Options) (prog : Node) : List Report :=
  (allNodes prog).flatMap fun n =>
    visitCallExpression opts n ++ visitExportNamed opts n ++ visitExportDefault opts n

example : getCallExpressionName (.callExpr (.identifier "query") []) = some "query" := rfl
example : getCallExpressionName
    (.callExpr (.member (.identifier "query") (.identifier "batch") false) []) =
    some "query.batch" := rfl
example : getCallExpressionName
    (.callExpr (.member .thisExpr (.identifier "hasPermission") false) []) = none := rfl
example : getCallExpressionName
    (.callExpr (.member (.identifier "a") .literal true) []) = some "a" := rfl
example : callMatchesEnforced "permissions.hasPermission" "hasPermission" = true := by decide
example : callMatchesEnforced "x.a.b" "a.b" = false := by decide
example : getDirectCalls
    (.arrowFn false (.blockStmt [.exprStmt (.callExpr (.identifier "hasPermission") [])])) =
    ["hasPermission"] := rfl
example : getDirectCalls
    (.arrowFn true (.awaitExpr (.callExpr (.identifier "f") []))) = ["f"] := rfl
example : getDirectCalls
    (.arrowFn false (.blockStmt
      [.functionDecl (some "helper")
        (.blockStmt [.exprStmt (.callExpr (.identifier "hasPermission") [])]),
       .exprStmt (.callExpr (.identifier "helper") [])])) = ["helper"] := rfl

/-! ### Auxiliary predicates and concrete fixtures used by the theorems -/

/-- Whether the innermost base of a callee chain (following `object`
links of member accesses) is a plain identifier. -/
def isIdentifierRooted : Node → Bool
  | .member object _ _ => isIdentifierRooted object
  | .identifier _ => true
  | _ => false

/-- `() => { console.log("x") }`: a non-empty callback performing no
enforced call. -/
def consoleLogArrow : Node :=
  .arrowFn false (.blockStmt
    [.exprStmt (.callExpr (.member (.identifier "console") (.identifier "log") false)
      [.literal])])

/-- `() => { hasPermission() }`. -/
def hasPermissionArrow : Node :=
  .arrowFn false (.blockStmt [.exprStmt (.callExpr (.identifier "hasPermission") [])])

/-- `query(() => { hasPermission() })` as a whole program. -/
def sc3Program : Node :=
  .program [.exprStmt (.callExpr (.identifier "query") [hasPermissionArrow])]

/-- `check=["query"], enforce=["hasPermission","isAuthenticated"], requireAll=true`. -/
def sc3Options : Options :=
  { check := ["query"], enforce := ["hasPermission", "isAuthenticated"], requireAll := true }

/-- `export const actions = { a: () => { hasPermission() }, b: () => { console.log("x") } }`. -/
def sc5Program : Node :=
  .program [.exportNamed (some (.varDecl [.varDeclarator (.identifier "actions")
    (some (.objectExpr [.propertyNode (.identifier "a") hasPermissionArrow,
                        .propertyNode (.identifier "b") consoleLogArrow]))]))]

/-- `checkFunctions=["actions"], enforce=["hasPermission"]`. -/
def sc5Options : Options := { checkFunctions := ["actions"], enforce := ["hasPermission"] }

/-- A callback whose block body held only comments: comments are not
nodes, so the parsed block has zero statements. -/
def commentOnlyArrow : Node := .arrowFn false (.blockStmt [])

/-- `query(() => { /* hasPermission() */ })` as a whole program. -/
def commentOnlyProgram : Node :=
  .program [.exprStmt (.callExpr (.identifier "query") [commentOnlyArrow])]

/-- `const load = () => { console.log("x") }` — a matching name bound
without any export wrapper. -/
def nonExportedProgram : Node :=
  .program [.varDecl [.varDeclarator (.identifier "load") (some consoleLogArrow)]]

/-- The report the rule emits for `consoleLogArrow` when both
`hasPermission` and `isAuthenticated` are enforced with `requireAll`. -/
def missingAllReport : Report :=
  { node := consoleLogArrow, messageId := "missingAll",
    functions := "hasPermission, isAuthenticated" }

/-! ### Theorems -/

/-- C3: `callMatchesEnforced` returns true on exact equality; for a
dotted call name and an undotted enforced name it returns true exactly
when the call's final dot-segment equals the enforced name; and for a
dotted enforced name only exact equality matches. -/
theorem callMatchesEnforced_spec (call enforce : String) :
    (call = enforce → callMatchesEnforced call enforce = true) ∧
    (containsDot call = true → containsDot enforce = false →
      (callMatchesEnforced call enforce = true ↔ (splitOnDot call).getLastD "" = enforce)) ∧
    (containsDot enforce = true →
      (callMatchesEnforced call enforce = true ↔ call = enforce)) := by
  refine ⟨?_, ?_, ?_⟩
  · intro h
    simp [callMatchesEnforced, h]
  · intro hc he
    by_cases heq : call = enforce
    · subst heq
      rw [hc] at he
      exact absurd he (by simp)
    · simp [callMatchesEnforced, heq, hc, he]
  · intro he
    by_cases heq : call = enforce
    · simp [callMatchesEnforced, heq]
    · simp [callMatchesEnforced, heq, he]

/-- C3 witness: `a.b` matches enforced `b`; `x.a.b` does not match the
dotted enforced name `a.b`. -/
theorem callMatchesEnforced_spec_witness :
    callMatchesEnforced "a.b" "b" = true ∧ callMatchesEnforced "x.a.b" "a.b" = false := by
  constructor
  · exact ((callMatchesEnforced_spec "a.b" "b").2.1 (by decide) (by decide)).mpr (by decide)
  · have h := (callMatchesEnforced_spec "x.a.b" "a.b").2.2 (by decide)
    cases hb : callMatchesEnforced "x.a.b" "a.b"
    · rfl
    · exact absurd (h.mp hb) (by decide)

/-- C6: the emptiness check is false for every expression-bodied arrow,
true for a block-bodied function exactly when the block has zero
statements, and an empty site is never reported under any policy. -/
theorem isEmptyCallback_spec :
    (∀ body, isEmptyCallback (.arrowFn true body) = false) ∧
    (∀ stmts, isEmptyCallback (.arrowFn false (.blockStmt stmts)) = stmts.isEmpty) ∧
    (∀ stmts, isEmptyCallback (.functionExpr (.blockStmt stmts)) = stmts.isEmpty) ∧
    (∀ id stmts, isEmptyCallback (.functionDecl id (.blockStmt stmts)) = stmts.isEmpty) ∧
    (∀ opts f, isEmptyCallback f = true → checkFunctionForEnforcedCalls opts f = []) := by
  refine ⟨fun _ => rfl, fun _ => rfl, fun _ => rfl, fun _ _ => rfl, ?_⟩
  intro opts f h
  simp [checkFunctionForEnforcedCalls, h]

/-- C6 witness: `() => {}` is empty and never reported, even under
`requireAll` with a non-empty enforcement list. -/
theorem isEmptyCallback_spec_witness :
    isEmptyCallback (.arrowFn false (.blockStmt [])) = true ∧
    checkFunctionForEnforcedCalls { enforce := ["hasPermission"], requireAll := true }
      (.arrowFn false (.blockStmt [])) = [] :=
  ⟨rfl, isEmptyCallback_spec.2.2.2.2 _ _ rfl⟩

/-- C5 counterexample: against the claim, a comment-only body (a block
of zero statements) is classified empty and yields NO violation — the
commented-out enforced call is a pass, not a violation. -/
theorem comment_only_body_counterexample :
    isEmptyCallback commentOnlyArrow = true ∧
    runRule { check := ["query"], enforce := ["hasPermission"] } commentOnlyProgram = [] :=
  ⟨rfl, rfl⟩

/-- C5 amended: a comment-only block is classified empty by the
emptiness check, and consequently the site is never reported, under every
policy. -/
theorem comment_only_body_pass (opts : Options) :
    isEmptyCallback commentOnlyArrow = true ∧
    checkFunctionForEnforcedCalls opts commentOnlyArrow = [] :=
  ⟨rfl, rfl⟩

/-- The `while` loop of the name resolver returns `null` exactly when the
chain's innermost base fails to be a plain identifier; non-identifier
property links are skipped, not fatal. -/
theorem collectMemberParts_none_iff (n : Node) (acc : List String) :
    collectMemberParts n acc = none ↔ isIdentifierRooted n = false := by
  induction n, acc using collectMemberParts.induct with
  | case1 o p c acc ih => simpa [collectMemberParts, isIdentifierRooted] using ih
  | case2 s acc => simp [collectMemberParts, isIdentifierRooted]
  | case3 n acc h1 h2 => cases n <;> simp_all [collectMemberParts, isIdentifierRooted]

/-- C2 counterexample: against the claim, a computed/bracket access link
does not make the resolver return `null`.  `a["b"]()` canonicalizes to the
partial name `"a"` (the literal segment is silently skipped), and
`a[x]()` with identifier `x` canonicalizes to `"a.x"` as if the access
were static. -/
theorem resolver_partial_name_counterexample :
    getCallExpressionName (.callExpr (.member (.identifier "a") .literal true) []) =
      some "a" ∧
    getCallExpressionName (.callExpr (.member (.identifier "a") (.identifier "x") true) []) =
      some "a.x" :=
  ⟨rfl, rfl⟩

/-- C2 amended: the resolver returns `null` for a member-chain callee
exactly when the chain's innermost base is not a plain identifier (a call
result, `this`, a literal, ...); identifier property links are collected
(computed or not) and non-identifier property links are skipped.  In
particular `this.hasPermission()` never canonicalizes to a name. -/
theorem resolver_base_identifier_spec (o p : Node) (c : Bool) (args : List Node) :
    (getCallExpressionName (.callExpr (.member o p c) args) = none ↔
      isIdentifierRooted (.member o p c) = false) ∧
    getCallExpressionName
      (.callExpr (.member .thisExpr (.identifier "hasPermission") false) []) = none := by
  refine ⟨?_, rfl⟩
  simp [getCallExpressionName, collectMemberParts_none_iff]

/-- C1: for a non-empty site, with `requireAll=false` a violation is
reported iff none of the extracted calls matches any enforced name, and
with `requireAll=true` iff some enforced name has zero matching calls;
a non-empty site with no extracted calls is always reported when the
enforcement list is non-empty. -/
theorem site_report_iff (opts : Options) (funcNode : Node)
    (h : isEmptyCallback funcNode = false) :
    (checkFunctionForEnforcedCalls opts funcNode ≠ [] ↔
      (if opts.requireAll then
        ∃ fn ∈ opts.enforce, ∀ c ∈ getDirectCalls funcNode,
          callMatchesEnforced c fn = false
      else
        ∀ fn ∈ opts.enforce, ∀ c ∈ getDirectCalls funcNode,
          callMatchesEnforced c fn = false)) ∧
    (getDirectCalls funcNode = [] → opts.enforce ≠ [] →
      checkFunctionForEnforcedCalls opts funcNode ≠ []) := by
  have hrep : checkFunctionForEnforcedCalls opts funcNode ≠ [] ↔
      checkEnforcedCalls (getDirectCalls funcNode) opts.enforce opts.requireAll = false := by
    cases hc : checkEnforcedCalls (getDirectCalls funcNode) opts.enforce opts.requireAll <;>
      simp [checkFunctionForEnforcedCalls, h, hc]
  have hiff : checkEnforcedCalls (getDirectCalls funcNode) opts.enforce opts.requireAll
        = false ↔
      (if opts.requireAll then
        ∃ fn ∈ opts.enforce, ∀ c ∈ getDirectCalls funcNode,
          callMatchesEnforced c fn = false
      else
        ∀ fn ∈ opts.enforce, ∀ c ∈ getDirectCalls funcNode,
          callMatchesEnforced c fn = false) := by
    cases hra : opts.requireAll <;>
      simp [checkEnforcedCalls, hra, List.any_eq_true, List.all_eq_true,
        Bool.not_eq_true]
  refine ⟨hrep.trans hiff, ?_⟩
  intro hcalls henf
  rw [hrep, hiff, hcalls]
  cases hra : opts.requireAll <;> simp [hra]
  exact List.exists_mem_of_ne_nil _ henf

/-- C1 witness: with `enforce=["hasPermission"]`, `requireAll=false`,
the non-empty callback `() => { console.log("x") }` is reported. -/
theorem site_report_iff_witness :
    checkFunctionForEnforcedCalls { enforce := ["hasPermission"] } consoleLogArrow ≠ [] := by
  exact (site_report_iff { enforce := ["hasPermission"] } consoleLogArrow rfl).1.mpr
    (by decide)

/-- C10: every emitted report carries the message id selected by
`requireAll` and the comma-joined full enforcement list; a site is
reported at most once; and in the scenario
`check=["query"], enforce=["hasPermission","isAuthenticated"],
requireAll=true` over `query(() => { hasPermission() })` the single
violation references both names. -/
theorem report_payload_spec (opts : Options) (f : Node) (r : Report)
    (h : r ∈ checkFunctionForEnforcedCalls opts f) :
    (r.messageId = if opts.requireAll then "missingAll" else "missingAtLeastOne") ∧
    r.functions = String.intercalate ", " opts.enforce ∧
    (checkFunctionForEnforcedCalls opts f).length ≤ 1 ∧
    runRule sc3Options sc3Program =
      [{ node := hasPermissionArrow, messageId := "missingAll",
         functions := "hasPermission, isAuthenticated" }] := by
  have hlen : (checkFunctionForEnforcedCalls opts f).length ≤ 1 := by
    unfold checkFunctionForEnforcedCalls
    split <;> simp
    split <;> simp
  by_cases he : isEmptyCallback f = true
  · simp [checkFunctionForEnforcedCalls, he] at h
  · have he' : isEmptyCallback f = false := by simpa using he
    have hval : checkFunctionForEnforcedCalls opts f =
        if !(checkEnforcedCalls (getDirectCalls f) opts.enforce opts.requireAll) then
          [{ node := f
             messageId := if opts.requireAll then "missingAll" else "missingAtLeastOne"
             functions := String.intercalate ", " opts.enforce }]
        else [] := by
      simp [checkFunctionForEnforcedCalls, he']
    rw [hval] at h
    split at h
    · obtain rfl := List.mem_singleton.mp h
      exact ⟨rfl, rfl, hlen, rfl⟩
    · exact absurd h (List.not_mem_nil r)

/-- C10 witness: the report for `() => { console.log("x") }` under
`enforce=["hasPermission","isAuthenticated"], requireAll=true` carries
`missingAll` and both names. -/
theorem report_payload_spec_witness : missingAllReport.messageId = "missingAll" := by
  have hmem : missingAllReport ∈
      checkFunctionForEnforcedCalls
        { enforce := ["hasPermission", "isAuthenticated"], requireAll := true }
        consoleLogArrow := by
    rw [show checkFunctionForEnforcedCalls
        { enforce := ["hasPermission", "isAuthenticated"], requireAll := true }
        consoleLogArrow = [missingAllReport] from rfl]
    exact List.mem_singleton.mpr rfl
  exact (report_payload_spec
    { enforce := ["hasPermission", "isAuthenticated"], requireAll := true }
    consoleLogArrow _ hmem).1

/-- C7: in each of the four collection positions, one optional `await`
wrapper is unwrapped, `await f(...)` contributes the same name as
`f(...)`, and when the unwrapped expression is not an invocation nothing
is emitted. -/
theorem await_unwrap_spec (callee did : Node) (args : List Node) (e : Node) :
    (getDirectCalls (.arrowFn true (.awaitExpr (.callExpr callee args))) =
      getDirectCalls (.arrowFn true (.callExpr callee args))) ∧
    (collectCallsFromStatement (.exprStmt (.awaitExpr (.callExpr callee args))) =
      collectCallsFromStatement (.exprStmt (.callExpr callee args))) ∧
    (collectCallsFromStatement
        (.varDecl [.varDeclarator did (some (.awaitExpr (.callExpr callee args)))]) =
      collectCallsFromStatement
        (.varDecl [.varDeclarator did (some (.callExpr callee args))])) ∧
    (collectCallsFromStatement (.returnStmt (some (.awaitExpr (.callExpr callee args)))) =
      collectCallsFromStatement (.returnStmt (some (.callExpr callee args)))) ∧
    ((∀ c a, unwrapOneAwait e ≠ .callExpr c a) →
      getDirectCalls (.arrowFn true e) = [] ∧
      collectCallsFromStatement (.exprStmt e) = [] ∧
      collectCallsFromStatement (.returnStmt (some e)) = [] ∧
      collectCallsFromStatement (.varDecl [.varDeclarator did (some e)]) = []) := by
  refine ⟨rfl, rfl, rfl, rfl, ?_⟩
  intro h
  have hemit : emitCallName e = [] := by
    unfold emitCallName
    cases hx : unwrapOneAwait e <;> first | exact absurd hx (h _ _) | rfl
  have hname : getCallExpressionName (unwrapOneAwait e) = none := by
    cases hx : unwrapOneAwait e <;> first | exact absurd hx (h _ _) | rfl
  refine ⟨by simp [getDirectCalls, hname], hemit, hemit, ?_⟩
  simp [collectCallsFromStatement, collectFromDeclarators, hemit]

/-- C7 witness: `() => await f()` extracts the same name as `() => f()`,
and a non-invocation expression statement emits nothing. -/
theorem await_unwrap_spec_witness :
    getDirectCalls (.arrowFn true (.awaitExpr (.callExpr (.identifier "f") []))) =
      getDirectCalls (.arrowFn true (.callExpr (.identifier "f") [])) ∧
    collectCallsFromStatement (.exprStmt (.identifier "g")) = [] := by
  have h := await_unwrap_spec (.identifier "f") (.identifier "x") [] (.identifier "g")
  exact ⟨h.1, (h.2.2.2.2 (fun c a hx => by simp [unwrapOneAwait] at hx)).2.1⟩

/-- The one report of scenario 5, anchored at property `b`'s function. -/
def sc5ViolationReport : Report :=
  { node := consoleLogArrow, messageId := "missingAtLeastOne",
    functions := "hasPermission" }

/-- C8: the properties of a monitored exported object literal are
independent sites — the reports for any concatenation of properties are
the concatenation of each part's reports — and scenario 5 produces
exactly one violation, anchored at property `b`'s function value. -/
theorem exported_object_sites_independent (opts : Options) (name : String)
    (props1 props2 : List Node) (p : Node)
    (h : opts.checkFunctions.contains name = true) :
    (checkExportedDeclarator opts
        (.varDeclarator (.identifier name) (some (.objectExpr (props1 ++ p :: props2)))) =
      checkExportedDeclarator opts
        (.varDeclarator (.identifier name) (some (.objectExpr props1))) ++
      checkExportedDeclarator opts
        (.varDeclarator (.identifier name) (some (.objectExpr [p]))) ++
      checkExportedDeclarator opts
        (.varDeclarator (.identifier name) (some (.objectExpr props2)))) ∧
    runRule sc5Options sc5Program = [sc5ViolationReport] := by
  constructor
  · have hm : name ∈ opts.checkFunctions := by simpa using h
    simp [checkExportedDeclarator, getExportedFunctionName, hm, unwrapTypeExpression]
  · rfl

/-- C8 witness: the independence theorem applied to the scenario-5
configuration yields its single violation at property `b`. -/
theorem exported_object_sites_independent_witness :
    runRule sc5Options sc5Program = [sc5ViolationReport] :=
  (exported_object_sites_independent sc5Options "actions" [] [] Node.otherNode
    (by decide)).2

/-- A node with a non-empty `ExportNamedDeclaration` visitor result is an
`exportNamed` node. -/
theorem visitExportNamed_shape (opts : Options) (n : Node) :
    visitExportNamed opts n ≠ [] → ∃ d, n = Node.exportNamed d := by
  cases n <;> intro h <;> first | exact ⟨_, rfl⟩ | exact absurd rfl h

/-- A node with a non-empty `ExportDefaultDeclaration` visitor result is
an `exportDefault` node. -/
theorem visitExportDefault_shape (opts : Options) (n : Node) :
    visitExportDefault opts n ≠ [] → ∃ d, n = Node.exportDefault d := by
  cases n <;> intro h <;> first | exact ⟨_, rfl⟩ | exact absurd rfl h

/-- With no monitored call names, the `CallExpression` visitor never
reports. -/
theorem visitCallExpression_check_nil (opts : Options) (hc : opts.check = [])
    (n : Node) : visitCallExpression opts n = [] := by
  unfold visitCallExpression
  cases hn : getCallExpressionName n with
  | none => rfl
  | some name => rw [hc]; rfl

/-- C9: in function-name monitoring mode (no monitored call names), every
report arises from an export declaration node of the tree; a tree without
export declarations yields no report at all, so a non-exported binding is
never a site. -/
theorem function_name_mode_exports_only (opts : Options) (prog : Node)
    (hc : opts.check = []) :
    (∀ r ∈ runRule opts prog, ∃ n ∈ allNodes prog,
        ((∃ d, n = Node.exportNamed d) ∨ (∃ d, n = Node.exportDefault d)) ∧
        (r ∈ visitExportNamed opts n ∨ r ∈ visitExportDefault opts n)) ∧
    ((∀ d, Node.exportNamed d ∉ allNodes prog) →
     (∀ d, Node.exportDefault d ∉ allNodes prog) →
      runRule opts prog = []) := by
  constructor
  · intro r hr
    rw [runRule, List.mem_flatMap] at hr
    obtain ⟨n, hn, hrn⟩ := hr
    rw [visitCallExpression_check_nil opts hc n, List.nil_append] at hrn
    rcases List.mem_append.mp hrn with h1 | h2
    · have hne : visitExportNamed opts n ≠ [] := fun hh => by simp [hh] at h1
      obtain ⟨d, rfl⟩ := visitExportNamed_shape opts n hne
      exact ⟨_, hn, Or.inl ⟨d, rfl⟩, Or.inl h1⟩
    · have hne : visitExportDefault opts n ≠ [] := fun hh => by simp [hh] at h2
      obtain ⟨d, rfl⟩ := visitExportDefault_shape opts n hne
      exact ⟨_, hn, Or.inr ⟨d, rfl⟩, Or.inr h2⟩
  · intro h1 h2
    rw [runRule]
    refine List.flatMap_eq_nil_iff.mpr ?_
    intro n hn
    rw [visitCallExpression_check_nil opts hc n, List.nil_append]
    have hen : visitExportNamed opts n = [] := by
      by_contra hne
      obtain ⟨d, rfl⟩ := visitExportNamed_shape opts n hne
      exact h1 d hn
    have hed : visitExportDefault opts n = [] := by
      by_contra hne
      obtain ⟨d, rfl⟩ := visitExportDefault_shape opts n hne
      exact h2 d hn
    rw [hen, hed]
    rfl

/-- C9 witness: `const load = () => { console.log("x") }` with
`checkFunctions=["load"]` produces no report. -/
theorem function_name_mode_exports_only_witness :
    runRule { checkFunctions := ["load"], enforce := ["hasPermission"] }
      nonExportedProgram = [] := by
  refine (function_name_mode_exports_only _ nonExportedProgram rfl).2 ?_ ?_
  · intro d hd
    simp [nonExportedProgram, consoleLogArrow, allNodes, allNodesList, allNodesOpt] at hd
  · intro d hd
    simp [nonExportedProgram, consoleLogArrow, allNodes, allNodesList, allNodesOpt] at hd

/-! ### C4: calls inside nested functions are never collected

`stripNestedFunctions` replaces every function node occurring anywhere in
a tree by a function with an empty body, erasing every call performed
inside a nested function definition.  Proving the collector invariant
under this transformation shows no collected call ever originates inside
a nested function. -/

mutual

/-- Replace every function node (arrow, function expression, function
declaration) by one with an empty block body; recurse through every other
node kind. -/
def stripNestedFunctions : Node → Node
  | .identifier name => .identifier name
  | .literal => .literal
  | .thisExpr => .thisExpr
  | .member o p c => .member (stripNestedFunctions o) (stripNestedFunctions p) c
  | .callExpr callee args => .callExpr (stripNestedFunctions callee) (stripNodeList args)
  | .awaitExpr a => .awaitExpr (stripNestedFunctions a)
  | .arrowFn _ _ => .arrowFn false (.blockStmt [])
  | .functionExpr _ => .functionExpr (.blockStmt [])
  | .functionDecl id _ => .functionDecl id (.blockStmt [])
  | .objectExpr props => .objectExpr (stripNodeList props)
  | .propertyNode k v => .propertyNode (stripNestedFunctions k) (stripNestedFunctions v)
  | .spreadElement a => .spreadElement (stripNestedFunctions a)
  | .tsSatisfies e => .tsSatisfies (stripNestedFunctions e)
  | .tsAs e => .tsAs (stripNestedFunctions e)
  | .tsTypeAssertion e => .tsTypeAssertion (stripNestedFunctions e)
  | .exprStmt e => .exprStmt (stripNestedFunctions e)
  | .varDecl ds => .varDecl (stripNodeList ds)
  | .varDeclarator i init => .varDeclarator (stripNestedFunctions i) (stripOptNode init)
  | .returnStmt a => .returnStmt (stripOptNode a)
  | .blockStmt b => .blockStmt (stripNodeList b)
  | .ifStmt t c a =>
      .ifStmt (stripNestedFunctions t) (stripNestedFunctions c) (stripOptNode a)
  | .tryStmt b h f =>
      .tryStmt (stripNestedFunctions b) (stripOptNode h) (stripOptNode f)
  | .catchClause b => .catchClause (stripNestedFunctions b)
  | .forStmt b => .forStmt (stripNestedFunctions b)
  | .forInStmt b => .forInStmt (stripNestedFunctions b)
  | .forOfStmt b => .forOfStmt (stripNestedFunctions b)
  | .whileStmt b => .whileStmt (stripNestedFunctions b)
  | .doWhileStmt b => .doWhileStmt (stripNestedFunctions b)
  | .switchStmt cs => .switchStmt (stripNodeList cs)
  | .switchCase cs => .switchCase (stripNodeList cs)
  | .withStmt b => .withStmt (stripNestedFunctions b)
  | .labeledStmt b => .labeledStmt (stripNestedFunctions b)
  | .exportNamed d => .exportNamed (stripOptNode d)
  | .exportDefault d => .exportDefault (stripNestedFunctions d)
  | .program b => .program (stripNodeList b)
  | .otherNode => .otherNode

def stripNodeList : List Node → List Node
  | [] => []
  | n :: rest => stripNestedFunctions n :: stripNodeList rest

def stripOptNode : Option Node → Option Node
  | none => none
  | some n => some (stripNestedFunctions n)

end

/-- Stripping preserves whether a property link is an identifier, hence
the segment the resolver's loop prepends. -/
theorem strip_prop_match (p : Node) (parts : List String) :
    (match stripNestedFunctions p with
     | Node.identifier n => n :: parts
     | _ => parts) =
    (match p with
     | Node.identifier n => n :: parts
     | _ => parts) := by
  cases p <;> rfl

/-- The resolver's member-chain walk is unchanged by stripping nested
function bodies. -/
theorem collectMemberParts_strip (n : Node) (acc : List String) :
    collectMemberParts (stripNestedFunctions n) acc = collectMemberParts n acc := by
  induction n, acc using collectMemberParts.induct with
  | case1 o p c acc ih =>
      show collectMemberParts (stripNestedFunctions o)
          (match stripNestedFunctions p with
           | Node.identifier n => n :: acc
           | _ => acc) = _
      rw [strip_prop_match p acc, ih]
      rfl
  | case2 s acc => rfl
  | case3 n acc h1 h2 => cases n <;> first | rfl | simp_all

/-- Canonical call names are unchanged by stripping nested function
bodies. -/
theorem getCallExpressionName_strip (e : Node) :
    getCallExpressionName (stripNestedFunctions e) = getCallExpressionName e := by
  cases e <;> try rfl
  rename_i callee args
  cases callee <;> try rfl
  rename_i o p c
  show (collectMemberParts (stripNestedFunctions (.member o p c)) []).map
    (String.intercalate ".") = _
  rw [collectMemberParts_strip]
  rfl

/-- The unwrap-await-and-emit step is unchanged by stripping nested
function bodies. -/
theorem emitCallName_strip (e : Node) :
    emitCallName (stripNestedFunctions e) = emitCallName e := by
  cases e <;> first
    | rfl
    | (rename_i callee args
       exact congrArg Option.toList (getCallExpressionName_strip (Node.callExpr callee args)))
    | (rename_i a
       cases a <;> first
         | rfl
         | (rename_i callee args
            exact congrArg Option.toList
              (getCallExpressionName_strip (Node.callExpr callee args))))

/-- The declarator loop is unchanged by stripping nested function
bodies. -/
theorem collectFromDeclarators_strip (ds : List Node) :
    collectFromDeclarators (stripNodeList ds) = collectFromDeclarators ds := by
  induction ds with
  | nil => rfl
  | cons d rest ih =>
      cases d <;> first
        | exact ih
        | (rename_i i init
           cases init <;> first
             | exact ih
             | (rename_i x
                show emitCallName (stripNestedFunctions x) ++
                    collectFromDeclarators (stripNodeList rest) =
                  emitCallName x ++ collectFromDeclarators rest
                rw [emitCallName_strip x, ih]))

/-- The whole collector family is invariant under stripping nested
function bodies: every call the extractor collects survives the deletion
of all code inside nested functions, so none of the collected calls
originates there. -/
theorem strip_collect_all :
    (∀ s : Node, collectCallsFromStatement (stripNestedFunctions s) =
        collectCallsFromStatement s) ∧
    (∀ l : List Node, collectFromCases (stripNodeList l) = collectFromCases l) ∧
    (∀ l : List Node, collectFromStatements (stripNodeList l) = collectFromStatements l) ∧
    (∀ o : Option Node, collectFromHandler (stripOptNode o) = collectFromHandler o) ∧
    (∀ o : Option Node, collectFromOptStatement (stripOptNode o) =
        collectFromOptStatement o) := by
  apply collectCallsFromStatement.mutual_induct
  · intro e
    exact emitCallName_strip e
  · intro ds
    exact collectFromDeclarators_strip ds
  · intro a
    exact emitCallName_strip a
  · intro body ih
    exact ih
  · intro t c a ih1 ih5
    show collectCallsFromStatement (stripNestedFunctions c) ++
        collectFromOptStatement (stripOptNode a) = _
    rw [ih1, ih5]
    rfl
  · intro b h f ih1 ih4 ih5
    show collectCallsFromStatement (stripNestedFunctions b) ++
        collectFromHandler (stripOptNode h) ++
        collectFromOptStatement (stripOptNode f) = _
    rw [ih1, ih4, ih5]
    rfl
  · intro body ih
    exact ih
  · intro body ih
    exact ih
  · intro body ih
    exact ih
  · intro body ih
    exact ih
  · intro body ih
    exact ih
  · intro cs ih
    exact ih
  · intro body ih
    exact ih
  · intro body ih
    exact ih
  · intro t h1 h2 h3 h4 h5 h6 h7 h8 h9 h10 h11 h12 h13 h14
    cases t <;> first
      | rfl
      | (solve | simp_all)
      | (rename_i arg
         cases arg <;> first
           | rfl
           | (solve | simp_all))
  · rfl
  · intro consequent rest ih3 ih2
    show collectFromStatements (stripNodeList consequent) ++
        collectFromCases (stripNodeList rest) = _
    rw [ih3, ih2]
    rfl
  · intro head rest hneg ih
    cases head <;> first
      | exact ih
      | (solve | simp_all)
  · rfl
  · intro s rest ih1 ih3
    show collectCallsFromStatement (stripNestedFunctions s) ++
        collectFromStatements (stripNodeList rest) = _
    rw [ih1, ih3]
    rfl
  · intro body ih
    exact ih
  · intro t hneg
    cases t with
    | none => rfl
    | some s =>
        cases s <;> first
          | rfl
          | (solve | simp_all)
  · rfl
  · intro s ih
    exact ih

/-- C4: the extracted call list of a monitored body is unchanged when
every function defined within the body is replaced by an empty-bodied
function — erasing all calls inside nested functions — so the extractor
never collects a call whose invocation lies inside a nested function;
moreover a nested function declaration statement and a bare function
expression statement contribute nothing. -/
theorem nested_function_calls_not_collected :
    (∀ stmts : List Node,
      getDirectCalls (.arrowFn false (.blockStmt (stripNodeList stmts))) =
        getDirectCalls (.arrowFn false (.blockStmt stmts))) ∧
    (∀ stmts : List Node,
      getDirectCalls (.functionExpr (.blockStmt (stripNodeList stmts))) =
        getDirectCalls (.functionExpr (.blockStmt stmts))) ∧
    (∀ id stmts,
      getDirectCalls (.functionDecl id (.blockStmt (stripNodeList stmts))) =
        getDirectCalls (.functionDecl id (.blockStmt stmts))) ∧
    (∀ e, getDirectCalls (.arrowFn true (stripNestedFunctions e)) =
        getDirectCalls (.arrowFn true e)) ∧
    (∀ s, collectCallsFromStatement (stripNestedFunctions s) =
        collectCallsFromStatement s) ∧
    (∀ id body, collectCallsFromStatement (.functionDecl id body) = []) ∧
    (∀ e body, collectCallsFromStatement (.exprStmt (.arrowFn e body)) = []) := by
  refine ⟨fun stmts => strip_collect_all.2.2.1 stmts,
          fun stmts => strip_collect_all.2.2.1 stmts,
          fun id stmts => strip_collect_all.2.2.1 stmts,
          fun e => ?_,
          strip_collect_all.1,
          fun id body => rfl,
          fun e body => rfl⟩
  have hunwrap : unwrapOneAwait (stripNestedFunctions e) =
      stripNestedFunctions (unwrapOneAwait e) := by
    cases e <;> rfl
  show (getCallExpressionName (unwrapOneAwait (stripNestedFunctions e))).toList =
    (getCallExpressionName (unwrapOneAwait e)).toList
  rw [hunwrap, getCallExpressionName_strip]

end EnforceCall
